import Mathlib

/-!
# HTTP transfer statistics of the LFS API client (`lfsapi/stats.go`)

A shallow embedding of `lfsapi/stats.go` and the properties of its transfer
table, its key tagging and its log line.

Conventions of the embedding.

* A Go pointer that the code may receive as `nil` is an `Option`; dereferencing
  `none` is the fault `Fault.nilDeref` (a Go run-time panic).  A function that
  can panic returns `Except Fault _`.
* `*http.Response` values are used by the code as map keys (pointer identity).
  A non-nil response pointer is a `Response`: its address `ptr` together with
  the contents of the pointed-to struct at the time of the call.
* The client state is passed explicitly.  The sink behind `httpLogger` is the
  list of payloads handed to its `Write` method, oldest first.
* `time.Now()` is an explicit argument `now` of the function that calls it.
* `httputil.DumpRequest` and `httputil.DumpResponse` belong to the standard
  library: the bytes and the error they return are parameters (`Httputil`);
  the nil dereference `DumpRequest` makes on a request without `RequestURI`
  and without `URL` is part of the embedding (`Httputil.dumpRequest`).
* `trace` is a ghost field recording, in program order, the `Lock`/`Unlock`
  calls on `transferMu` and the writes to the sink.
-/

set_option maxRecDepth 8192

deriving instance DecidableEq for Except

namespace lfsapi

/-! ## Library types the file relies on -/

/-- Run-time panics the embedded code can raise. -/
inductive Fault where
  | nilDeref
  | typeAssert
  deriving DecidableEq, Repr

/-- Dereference of a pointer: `nil` panics. -/
def deref {α : Type} : Option α → Except Fault α
  | some a => .ok a
  | none => .error Fault.nilDeref

/-- A `time.Time` instant, as a count of nanoseconds; `0` is the zero value. -/
abbrev Time := Int

/-- Smallest `time.Duration` (an `int64` count of nanoseconds). -/
def minDuration : Int := -(2 ^ 63)

/-- Largest `time.Duration`. -/
def maxDuration : Int := 2 ^ 63 - 1

/-- The standard library's `t.Sub(u)`: the difference `t - u` in nanoseconds,
saturated to the range of `time.Duration`. -/
def Time.Sub (t u : Time) : Int :=
  if t - u < minDuration then minDuration
  else if maxDuration < t - u then maxDuration
  else t - u

/-- A dynamically typed value (`interface{}`) as stored in a `context.Context`. -/
inductive Any where
  | nil
  | string (s : String)
  | other (tag : Nat)
  deriving DecidableEq, Repr

/-- Keys of context values.  Go compares the dynamic type and the value, so a
key of the private type `statsContextKey` differs from every key of another
type. -/
inductive CtxKey where
  | statsContextKey (s : String)
  | foreign (tag : Nat)
  deriving DecidableEq, Repr

/-- A `context.Context`, reduced to its values: the latest `WithValue` first.
The empty list is `context.Background()`. -/
abbrev Context := List (CtxKey × Any)

/-- The result of `ctx.Value(key)`: the most recent value stored under `key`, or `nil`. -/
def Context.Value : Context → CtxKey → Any
  | [], _ => Any.nil
  | (k, v) :: rest, key => if k = key then v else Context.Value rest key

/-- The result of `context.WithValue(ctx, key, val)`. -/
def Context.WithValue (ctx : Context) (key : CtxKey) (val : Any) : Context :=
  (key, val) :: ctx

/-- The fields of `http.Request` the file and the header dump read.  `URL` is
the `*url.URL` field, given by its `String()` rendering when it is not nil;
`RequestURI` is empty in a client request. -/
structure Request where
  ContentLength : Int
  URL : Option String
  RequestURI : String
  ctx : Context
  Header : List (String × String)
  deriving DecidableEq, Repr

/-- A non-nil `*http.Response`: the address `ptr` (the identity used as map
key) and the fields of the struct the file reads. -/
structure Response where
  ptr : Nat
  StatusCode : Int
  Request : Option Request
  Header : List (String × String)
  deriving DecidableEq, Repr

/-- The two functions of `net/http/httputil` called by the file, with `body = false`:
what they return when they return.  `.error _` stands for a non-nil `err`. -/
structure Httputil where
  DumpRequest : Request → Except String (List UInt8)
  DumpResponse : Response → Except String (List UInt8)

/-- The call `httputil.DumpRequest(req, false)` on a present request.  The
library takes the request line from `req.RequestURI` and, when that is empty,
from `req.URL.RequestURI()`, which dereferences `req.URL`: a request with
neither panics. -/
def Httputil.dumpRequest (u : Httputil) (req : Request) :
    Except Fault (Except String (List UInt8)) :=
  if req.RequestURI = "" then
    match req.URL with
    | none => .error Fault.nilDeref
    | some _ => .ok (u.DumpRequest req)
  else .ok (u.DumpRequest req)

/-- Formatting an integer under the verb `%d`. -/
def fmtD (n : Int) : String := toString n

/-- Formatting a `*url.URL` under the verb `%s`: its `String()` method, and
`<nil>` for a nil pointer (the `fmt` package recovers the panic of the method). -/
def fmtURL : Option String → String
  | some s => s
  | none => "<nil>"

/-- The sink (`io.Writer`): the payloads of the `Write` calls made so far. -/
structure Writer where
  written : List String
  deriving DecidableEq, Repr

/-- One `Write` call on the sink; the error it may return is ignored by
`fmt.Fprintf`'s callers in this file. -/
def Writer.Write (w : Writer) (p : String) : Writer :=
  { written := w.written ++ [p] }

/-! ## The types of `stats.go` -/

structure httpTransferStats where
  HeaderSize : Int
  BodySize : Int
  Start : Time
  Stop : Time
  deriving DecidableEq, Repr

structure httpTransfer where
  Key : String
  requestStats : httpTransferStats
  responseStats : httpTransferStats
  deriving DecidableEq, Repr

/-- The constant `httpStatsKey = statsContextKey("http")`. -/
def httpStatsKey : CtxKey := CtxKey.statsContextKey "http"

/-- The Go map `map[*http.Response]*httpTransfer`, keyed by response address. -/
abbrev Table := List (Nat × httpTransfer)

/-- The lookup `m[k]` with its `ok` flag. -/
def Table.get : Table → Nat → Option httpTransfer
  | [], _ => none
  | (k, v) :: rest, key => if k = key then some v else Table.get rest key

/-- The statement `delete(m, k)`. -/
def Table.delete (m : Table) (key : Nat) : Table :=
  m.filter (fun e => decide (e.1 ≠ key))

/-- The assignment `m[k] = v`: the previous entry of `k`, if any, is replaced. -/
def Table.set (m : Table) (key : Nat) (v : httpTransfer) : Table :=
  (key, v) :: Table.delete m key

/-- Events on the mutex `transferMu` and on the sink. `write p` is the
call `writeHTTPStats(c.httpLogger, res, transfer)` for the response at
address `p`, which writes one line to the sink. -/
inductive Event where
  | lock
  | unlock
  | write (p : Nat)
  deriving DecidableEq, Repr

/-- The fields of `Client` used by `stats.go`.  `httpLogger = none` is the nil
interface; `transfers = none` is the nil map. -/
structure Client where
  httpLogger : Option Writer
  transfers : Option Table
  trace : List Event
  deriving DecidableEq, Repr

/-! ## The functions of `stats.go` -/

/-- The method `LogRequest`: the request with the key stored in its context;
`r.Context()` dereferences `r`. -/
def LogRequest (r : Option Request) (reqKey : String) : Except Fault Request := do
  let req ← deref r
  let ctx := Context.WithValue req.ctx httpStatsKey (Any.string reqKey)
  return { req with ctx := ctx }

/-- The line of `writeHTTPStats`, from the format string
`key=%s reqheader=%d reqbody=%d resheader=%d resbody=%d restime=%d status=%d url=%s\n`. -/
def statsLine (t : httpTransfer) (status : Int) (url : Option String) : String :=
  "key=" ++ t.Key ++
  " reqheader=" ++ fmtD t.requestStats.HeaderSize ++
  " reqbody=" ++ fmtD t.requestStats.BodySize ++
  " resheader=" ++ fmtD t.responseStats.HeaderSize ++
  " resbody=" ++ fmtD t.responseStats.BodySize ++
  " restime=" ++ fmtD (Time.Sub t.responseStats.Stop t.responseStats.Start) ++
  " status=" ++ fmtD status ++
  " url=" ++ fmtURL url ++ "\n"

/-- The function `writeHTTPStats`.  The arguments of `Fprintf` are evaluated first:
`res.StatusCode` dereferences `res` and `res.Request.URL` dereferences
`res.Request`.  `t` and its two records are allocated together by
`startResponseStats` and are never nil. -/
def writeHTTPStats (w : Writer) (res : Option Response) (t : httpTransfer) :
    Except Fault Writer := do
  let r ← deref res
  let req ← deref r.Request
  return w.Write (statsLine t r.StatusCode req.URL)

/-- The size recorded for a header dump: `len(dump)` when `err == nil`, else `0`. -/
def dumpSize : Except String (List UInt8) → Int
  | .ok dump => (dump.length : Int)
  | .error _ => 0

/-- The method `startResponseStats`.  The map is initialised and assigned
between `Lock` and `Unlock`. -/
def startResponseStats (u : Httputil) (c : Client) (res : Option Response) (start : Time) :
    Except Fault Client :=
  match c.httpLogger with
  | none => .ok c
  | some _ => do
    let r ← deref res
    -- `httputil.DumpRequest(res.Request, false)` reads `req.Body` at once, and
    -- line 69 reads `res.Request.ContentLength`: a nil request panics.  The dump
    -- itself panics on a request without `RequestURI` and without `URL`.
    let req ← deref r.Request
    let reqDump ← u.dumpRequest req
    let reqHeaderSize := dumpSize reqDump
    let resHeaderSize := dumpSize (u.DumpResponse r)
    let reqstats : httpTransferStats :=
      { HeaderSize := reqHeaderSize, BodySize := req.ContentLength, Start := 0, Stop := 0 }
    let resstats : httpTransferStats :=
      { HeaderSize := resHeaderSize, BodySize := 0, Start := start, Stop := 0 }
    let key ← (match Context.Value req.ctx httpStatsKey with
      | Any.nil => Except.ok "none"
      | Any.string s => Except.ok s
      | Any.other _ => Except.error Fault.typeAssert)
    let t : httpTransfer := { Key := key, requestStats := reqstats, responseStats := resstats }
    let m : Table := match c.transfers with
      | none => []
      | some m => m
    return { c with
      transfers := some (Table.set m r.ptr t)
      trace := c.trace ++ [Event.lock, Event.unlock] }

/-- The method `finishResponseStats`.  The mutex is locked on entry to the second part and
unlocked by the deferred call when the function returns. -/
def finishResponseStats (c : Client) (res : Option Response) (bodySize : Int) (now : Time) :
    Except Fault Client :=
  match res, c.httpLogger with
  | none, _ => .ok c
  | some _, none => .ok c
  | some r, some w =>
    match c.transfers with
    | none => .ok { c with trace := c.trace ++ [Event.lock, Event.unlock] }
    | some m =>
      match Table.get m r.ptr with
      | none => .ok { c with trace := c.trace ++ [Event.lock, Event.unlock] }
      | some transfer => do
        let transfer : httpTransfer :=
          { transfer with
            responseStats := { transfer.responseStats with BodySize := bodySize, Stop := now } }
        let w' ← writeHTTPStats w (some r) transfer
        return { httpLogger := some w'
                 transfers := some (Table.delete m r.ptr)
                 trace := c.trace ++
                   [Event.lock, Event.write r.ptr, Event.unlock] }

/-! ## Observations on a client and sequences of calls -/

/-- The entry of the response at address `p` in the table, read as Go reads a
map (a nil map has no entries). -/
def Client.entry (c : Client) (p : Nat) : Option httpTransfer :=
  match c.transfers with
  | none => none
  | some m => Table.get m p

/-- Everything written to the sink so far; nothing when no sink is stored. -/
def Client.output (c : Client) : List String :=
  match c.httpLogger with
  | none => []
  | some w => w.written

/-- A call of one of the two entry points of the transfer table. -/
inductive Call where
  | start (res : Option Response) (observedAt : Time)
  | finish (res : Option Response) (bodySize : Int) (now : Time)
  deriving DecidableEq, Repr

/-- The address of the response a call is made on, if it is not nil. -/
def Call.ptr : Call → Option Nat
  | .start res _ => res.map Response.ptr
  | .finish res _ _ => res.map Response.ptr

/-- Performing one call. -/
def Call.apply (u : Httputil) (c : Client) : Call → Except Fault Client
  | .start res t => startResponseStats u c res t
  | .finish res bodySize now => finishResponseStats c res bodySize now

/-- Performing a sequence of calls in order; a panic ends the run. -/
def run (u : Httputil) : List Call → Client → Except Fault Client
  | [], c => .ok c
  | call :: rest, c =>
    match call.apply u c with
    | .ok c' => run u rest c'
    | .error e => .error e

/-- The number of `startResponseStats` calls made on the response at address `p`. -/
def startsFor (p : Nat) (calls : List Call) : Nat :=
  calls.countP (fun call => match call with
    | .start (some r) _ => decide (r.ptr = p)
    | _ => false)

/-- The number of lines written for the response at address `p`. -/
def linesFor (p : Nat) (trace : List Event) : Nat :=
  trace.count (Event.write p)

/-- The number of writes to the sink recorded in a trace. -/
def writes (trace : List Event) : Nat :=
  trace.countP (fun e => match e with
    | .write _ => true
    | _ => false)

/-- The number of live entries of the response at address `p`: `0` or `1`. -/
def Client.live (c : Client) (p : Nat) : Nat :=
  if (c.entry p).isSome then 1 else 0

/-- Splitting a text at every occurrence of a separator character. -/
def splitOnChar (sep : Char) : List Char → List (List Char)
  | [] => [[]]
  | ch :: rest =>
    if ch = sep then [] :: splitOnChar sep rest
    else match splitOnChar sep rest with
      | [] => [[ch]]
      | tok :: toks => (ch :: tok) :: toks

/-- Joining texts with a separator character. -/
def joinWith (sep : Char) : List (List Char) → List Char
  | [] => []
  | [t] => t
  | t :: ts => t ++ sep :: joinWith sep ts

/-- The lines of a payload: the texts between its newlines.  A payload made of
one newline-terminated line gives that line followed by the empty text. -/
def payloadLines (payload : String) : List String :=
  (splitOnChar '\n' payload.data).map String.mk

/-- The space-separated tokens of a line. -/
def lineTokens (line : String) : List String :=
  (splitOnChar ' ' line.data).map String.mk

/-- All the transfers the table holds for the response at address `p`. -/
def Client.entries (c : Client) (p : Nat) : List httpTransfer :=
  match c.transfers with
  | none => []
  | some m => (m.filter (fun e => decide (e.1 = p))).map Prod.snd

/-- The calls `startResponseStats(res, start)` for a list of responses and start times. -/
def openCalls (opens : List (Response × Time)) : List Call :=
  opens.map (fun o => Call.start (some o.1) o.2)

/-- Whether a trace, read from a state in which the mutex is held or not
(`held`), has no write to the sink at a moment the mutex is held. -/
def noWriteWhileLocked : Bool → List Event → Bool
  | _, [] => true
  | _, Event.lock :: rest => noWriteWhileLocked true rest
  | _, Event.unlock :: rest => noWriteWhileLocked false rest
  | held, Event.write _ :: rest => !held && noWriteWhileLocked held rest

/-- Whether every write to the sink in a trace happens at a moment the mutex is held. -/
def writesOnlyWhileLocked : Bool → List Event → Bool
  | _, [] => true
  | _, Event.lock :: rest => writesOnlyWhileLocked true rest
  | _, Event.unlock :: rest => writesOnlyWhileLocked false rest
  | held, Event.write _ :: rest => held && writesOnlyWhileLocked held rest

/-! ## Sample values -/

/-- Header dumps of 96 and 120 bytes. -/
def exUtil : Httputil :=
  { DumpRequest := fun _ => .ok (List.replicate 96 0)
    DumpResponse := fun _ => .ok (List.replicate 120 0) }

/-- A header dump that always fails. -/
def exBadUtil : Httputil :=
  { DumpRequest := fun _ => .error "malformed"
    DumpResponse := fun _ => .error "malformed" }

/-- An untagged request of unknown length. -/
def exReq : Request :=
  { ContentLength := -1, URL := some "https://example.com/obj", RequestURI := "", ctx := []
    Header := [] }

/-- A response to `exReq` tagged `upload-1`. -/
def exRes : Response :=
  { ptr := 1, StatusCode := 200, Header := []
    Request := some { exReq with ctx := [(httpStatsKey, Any.string "upload-1")] } }

/-- A response to the untagged `exReq`. -/
def exRes2 : Response :=
  { ptr := 2, StatusCode := 404, Header := [], Request := some exReq }

/-- A response to a request without URL and without `RequestURI`. -/
def exNoURL : Response :=
  { ptr := 4, StatusCode := 200, Header := [], Request := some { exReq with URL := none } }

/-- A response to a request without URL that carries a `RequestURI`. -/
def exURI : Response :=
  { ptr := 5, StatusCode := 200, Header := []
    Request := some { exReq with URL := none, RequestURI := "/obj" } }

/-- A response whose originating request is absent. -/
def exOrphan : Response :=
  { ptr := 3, StatusCode := 200, Header := [], Request := none }

/-- The completed transfer of the tagged request: opened at `1000`, closed
50 ms later with 4096 body bytes. -/
def exDone : httpTransfer :=
  { Key := "upload-1"
    requestStats := { HeaderSize := 96, BodySize := -1, Start := 0, Stop := 0 }
    responseStats := { HeaderSize := 120, BodySize := 4096, Start := 1000, Stop := 50001000 } }

/-- The client after `exRes` was opened at `1000` and `exRes2` at `2000`. -/
def exTwoOpened : Client :=
  { httpLogger := some { written := [] }
    transfers := some
      [(2, { Key := "none"
             requestStats := { HeaderSize := 96, BodySize := -1, Start := 0, Stop := 0 }
             responseStats := { HeaderSize := 120, BodySize := 0, Start := 2000, Stop := 0 } }),
       (1, { Key := "upload-1"
             requestStats := { HeaderSize := 96, BodySize := -1, Start := 0, Stop := 0 }
             responseStats := { HeaderSize := 120, BodySize := 0, Start := 1000, Stop := 0 } })]
    trace := [Event.lock, Event.unlock, Event.lock, Event.unlock] }

/-- A client with a sink and a nil table. -/
def exClient : Client := { httpLogger := some { written := [] }, transfers := none, trace := [] }

/-- A client without a sink. -/
def exDisabled : Client := { httpLogger := none, transfers := none, trace := [] }

/-- The transfer `startResponseStats exUtil _ (some exRes) 1000` records. -/
def exTransfer : httpTransfer :=
  { Key := "upload-1"
    requestStats := { HeaderSize := 96, BodySize := -1, Start := 0, Stop := 0 }
    responseStats := { HeaderSize := 120, BodySize := 0, Start := 1000, Stop := 0 } }

/-- A client with a sink and one live entry, for `exRes`. -/
def exOpened : Client :=
  { httpLogger := some { written := [] }, transfers := some [(1, exTransfer)]
    trace := [Event.lock, Event.unlock] }

end lfsapi

namespace lfsapi

/-! ## The table -/

theorem Table.get_delete_self (m : Table) (k : Nat) : Table.get (Table.delete m k) k = none := by
  induction m with
  | nil => rfl
  | cons e rest ih =>
    obtain ⟨a, v⟩ := e
    by_cases h : a = k
    · simpa [Table.delete, List.filter_cons, h] using ih
    · simpa [Table.delete, List.filter_cons, h, Table.get] using ih

theorem Table.delete_cons (e : Nat × httpTransfer) (rest : Table) (k : Nat) :
    Table.delete (e :: rest) k = if e.1 = k then Table.delete rest k else e :: Table.delete rest k := by
  by_cases h : e.1 = k <;> simp [Table.delete, List.filter_cons, h]

theorem Table.get_delete_of_ne (m : Table) {k j : Nat} (h : j ≠ k) :
    Table.get (Table.delete m k) j = Table.get m j := by
  induction m with
  | nil => rfl
  | cons e rest ih =>
    obtain ⟨a, v⟩ := e
    rw [Table.delete_cons]
    by_cases hk : a = k
    · have hj : ¬ a = j := fun e => h (e ▸ hk)
      simp only [hk, if_true, Table.get]
      rw [ih, if_neg (hk ▸ hj)]
    · by_cases hj : a = j
      · subst hj
        simp [hk, Table.get]
      · simp only [hk, if_false, Table.get, hj]
        exact ih

theorem Table.get_set_self (m : Table) (k : Nat) (v : httpTransfer) :
    Table.get (Table.set m k v) k = some v := by
  simp [Table.set, Table.get]

theorem Table.get_set_of_ne (m : Table) {k j : Nat} (v : httpTransfer) (h : j ≠ k) :
    Table.get (Table.set m k v) j = Table.get m j := by
  have hk : k ≠ j := fun e => h e.symm
  simp [Table.set, Table.get, hk, Table.get_delete_of_ne m h]

/-- After `m[k] = v` the table holds exactly one entry for `k`. -/
theorem Table.filter_set_self (m : Table) (k : Nat) (v : httpTransfer) :
    (Table.set m k v).filter (fun e => decide (e.1 = k)) = [(k, v)] := by
  simp [Table.set, Table.delete, List.filter_cons, List.filter_filter]

end lfsapi

namespace lfsapi

/-! ## One call -/

/-- The transfer as `finishResponseStats` completes it before the line is written. -/
theorem finish_hit (c : Client) (r : Response) (n : Int) (now : Time) (w : Writer) (m : Table)
    (t : httpTransfer) (req : Request)
    (hw : c.httpLogger = some w) (hm : c.transfers = some m)
    (ht : Table.get m r.ptr = some t) (hreq : r.Request = some req) :
    finishResponseStats c (some r) n now = .ok
      { httpLogger := some (w.Write (statsLine
          { t with responseStats := { t.responseStats with BodySize := n, Stop := now } }
          r.StatusCode req.URL))
        transfers := some (Table.delete m r.ptr)
        trace := c.trace ++ [Event.lock, Event.write r.ptr, Event.unlock] } := by
  simp [finishResponseStats, hw, hm, ht, writeHTTPStats, deref, hreq, bind, Except.bind, pure,
    Except.pure]

theorem finish_miss (c : Client) (res : Option Response) (n : Int) (now : Time)
    (h : ∀ r, res = some r → c.entry r.ptr = none) :
    finishResponseStats c res n now = .ok c ∨
      finishResponseStats c res n now = .ok { c with trace := c.trace ++ [Event.lock, Event.unlock] } := by
  cases res with
  | none => left; simp [finishResponseStats]
  | some r =>
    cases hw : c.httpLogger with
    | none => left; simp [finishResponseStats, hw]
    | some w =>
      right
      cases hm : c.transfers with
      | none => simp [finishResponseStats, hw, hm]
      | some m =>
        have := h r rfl
        simp only [Client.entry, hm] at this
        simp [finishResponseStats, hw, hm, this]

theorem start_disabled (u : Httputil) (c : Client) (res : Option Response) (t : Time)
    (h : c.httpLogger = none) : startResponseStats u c res t = .ok c := by
  simp [startResponseStats, h]

theorem finish_disabled (c : Client) (res : Option Response) (n : Int) (now : Time)
    (h : c.httpLogger = none) : finishResponseStats c res n now = .ok c := by
  cases res <;> simp [finishResponseStats, h]

theorem dumpRequest_ok (u : Httputil) (req : Request)
    (hd : req.RequestURI = "" → req.URL ≠ none) :
    u.dumpRequest req = .ok (u.DumpRequest req) := by
  unfold Httputil.dumpRequest
  by_cases h : req.RequestURI = ""
  · cases hu : req.URL with
    | none => exact absurd hu (hd h)
    | some s => simp [h]
  · simp [h]

theorem dumpRequest_panic (u : Httputil) (req : Request)
    (h : req.RequestURI = "") (hu : req.URL = none) :
    u.dumpRequest req = .error Fault.nilDeref := by
  simp [Httputil.dumpRequest, h, hu]

/-- The key `startResponseStats` reads back from a request's context. -/
theorem start_enabled (u : Httputil) (c : Client) (r : Response) (t : Time) (w : Writer)
    (req : Request) (key : String)
    (hw : c.httpLogger = some w) (hreq : r.Request = some req)
    (hd : req.RequestURI = "" → req.URL ≠ none)
    (hkey : Context.Value req.ctx httpStatsKey = Any.string key ∨
      (Context.Value req.ctx httpStatsKey = Any.nil ∧ key = "none")) :
    startResponseStats u c (some r) t = .ok
      { httpLogger := c.httpLogger
        transfers := some (Table.set (c.transfers.getD []) r.ptr
          { Key := key
            requestStats := { HeaderSize := dumpSize (u.DumpRequest req)
                              BodySize := req.ContentLength, Start := 0, Stop := 0 }
            responseStats := { HeaderSize := dumpSize (u.DumpResponse r)
                               BodySize := 0, Start := t, Stop := 0 } })
        trace := c.trace ++ [Event.lock, Event.unlock] } := by
  have hm : (match c.transfers with | none => ([] : Table) | some m => m) = c.transfers.getD [] := by
    cases c.transfers <;> rfl
  rcases hkey with hk | ⟨hk, rfl⟩ <;>
    simp [startResponseStats, hw, deref, hreq, dumpRequest_ok u req hd, hk, bind, Except.bind,
      pure, Except.pure, hm]

/-- With a string or nothing under `httpStatsKey`, `startResponseStats` does
not panic on the type assertion. -/
theorem start_no_typeAssert (u : Httputil) (c : Client) (r : Response) (t : Time) (w : Writer)
    (req : Request) (key : String)
    (hw : c.httpLogger = some w) (hreq : r.Request = some req)
    (hkey : Context.Value req.ctx httpStatsKey = Any.string key ∨
      (Context.Value req.ctx httpStatsKey = Any.nil ∧ key = "none")) :
    startResponseStats u c (some r) t ≠ .error Fault.typeAssert := by
  by_cases hd : req.RequestURI = "" → req.URL ≠ none
  · rw [start_enabled u c r t w req key hw hreq hd hkey]
    intro h
    cases h
  · have huri : req.RequestURI = "" := by
      by_contra hne
      exact hd (fun h => absurd h hne)
    have hu : req.URL = none := by
      by_contra hne
      exact hd (fun _ => hne)
    have hp : startResponseStats u c (some r) t = .error Fault.nilDeref := by
      simp [startResponseStats, hw, deref, hreq, dumpRequest_panic u req huri hu, bind,
        Except.bind]
    rw [hp]
    intro h
    cases h

/-- A call of `startResponseStats` that returns, with the logger enabled, was
made on a present response with a present request whose key could be read. -/
theorem start_ok_inv (u : Httputil) (c c' : Client) (res : Option Response) (t : Time) (w : Writer)
    (hw : c.httpLogger = some w) (h : startResponseStats u c res t = .ok c') :
    ∃ r req key, res = some r ∧ r.Request = some req ∧
      (req.RequestURI = "" → req.URL ≠ none) ∧
      (Context.Value req.ctx httpStatsKey = Any.string key ∨
        (Context.Value req.ctx httpStatsKey = Any.nil ∧ key = "none")) := by
  cases res with
  | none => simp [startResponseStats, hw, deref, bind, Except.bind] at h
  | some r =>
    cases hreq : r.Request with
    | none => simp [startResponseStats, hw, deref, hreq, bind, Except.bind] at h
    | some req =>
      have hd : req.RequestURI = "" → req.URL ≠ none := by
        intro huri hu
        simp [startResponseStats, hw, deref, hreq, dumpRequest_panic u req huri hu, bind,
          Except.bind] at h
      cases hk : Context.Value req.ctx httpStatsKey with
      | nil => exact ⟨r, req, "none", rfl, hreq, hd, Or.inr ⟨hk, rfl⟩⟩
      | string s => exact ⟨r, req, s, rfl, hreq, hd, Or.inl hk⟩
      | other k =>
        simp [startResponseStats, hw, deref, hreq, dumpRequest_ok u req hd, hk, bind,
          Except.bind] at h

end lfsapi

namespace lfsapi

/-- The effect of `finishResponseStats` on a response with a live entry, by observations. -/
theorem finish_live (c : Client) (r : Response) (n : Int) (now : Time) (w : Writer)
    (t : httpTransfer) (req : Request)
    (hw : c.httpLogger = some w) (he : c.entry r.ptr = some t) (hreq : r.Request = some req) :
    ∃ c2, finishResponseStats c (some r) n now = .ok c2 ∧
      c2.httpLogger = some (w.Write (statsLine
        { t with responseStats := { t.responseStats with BodySize := n, Stop := now } }
        r.StatusCode req.URL)) ∧
      c2.entry r.ptr = none ∧
      (∀ q, q ≠ r.ptr → c2.entry q = c.entry q) ∧
      c2.trace = c.trace ++ [Event.lock, Event.write r.ptr, Event.unlock] := by
  cases hm : c.transfers with
  | none => simp [Client.entry, hm] at he
  | some m =>
    simp only [Client.entry, hm] at he
    refine ⟨_, finish_hit c r n now w m t req hw hm he hreq, rfl, ?_, ?_, rfl⟩
    · simp [Client.entry, Table.get_delete_self]
    · intro q hq
      simp [Client.entry, hm, Table.get_delete_of_ne m hq]

/-- The effect of `startResponseStats` with the logger enabled, by observations. -/
theorem start_live (u : Httputil) (c : Client) (r : Response) (t : Time) (w : Writer)
    (req : Request) (key : String)
    (hw : c.httpLogger = some w) (hreq : r.Request = some req)
    (hd : req.RequestURI = "" → req.URL ≠ none)
    (hkey : Context.Value req.ctx httpStatsKey = Any.string key ∨
      (Context.Value req.ctx httpStatsKey = Any.nil ∧ key = "none")) :
    ∃ c1, startResponseStats u c (some r) t = .ok c1 ∧
      c1.httpLogger = some w ∧
      c1.entry r.ptr = some
        { Key := key
          requestStats := { HeaderSize := dumpSize (u.DumpRequest req)
                            BodySize := req.ContentLength, Start := 0, Stop := 0 }
          responseStats := { HeaderSize := dumpSize (u.DumpResponse r)
                             BodySize := 0, Start := t, Stop := 0 } } ∧
      (∀ q, q ≠ r.ptr → c1.entry q = c.entry q) ∧
      c1.trace = c.trace ++ [Event.lock, Event.unlock] := by
  refine ⟨_, start_enabled u c r t w req key hw hreq hd hkey, hw, ?_, ?_, rfl⟩
  · simp [Client.entry, Table.get_set_self]
  · intro q hq
    cases hm : c.transfers with
    | none => simp only [Client.entry, hm, Option.getD_none, Table.get_set_of_ne _ _ hq]; rfl
    | some m => simp only [Client.entry, hm, Option.getD_some, Table.get_set_of_ne _ _ hq]

/-- Closing a live entry of a response whose request is absent panics in `writeHTTPStats`. -/
theorem finish_orphan (c : Client) (r : Response) (n : Int) (now : Time) (w : Writer)
    (t : httpTransfer) (hw : c.httpLogger = some w) (he : c.entry r.ptr = some t)
    (hreq : r.Request = none) :
    finishResponseStats c (some r) n now = .error Fault.nilDeref := by
  cases hm : c.transfers with
  | none => simp [Client.entry, hm] at he
  | some m =>
    simp only [Client.entry, hm] at he
    simp [finishResponseStats, hw, hm, he, writeHTTPStats, deref, hreq, bind, Except.bind]

/-- What one returning call does: nothing to the sink and the entries; or it
opens the entry of its response; or it closes the live entry of its response
and writes its line. -/
theorem step_spec (u : Httputil) (c1 c2 : Client) (call : Call)
    (h : call.apply u c1 = .ok c2) :
    (c2.httpLogger = c1.httpLogger ∧ (∀ q, c2.entry q = c1.entry q) ∧
      (c2.trace = c1.trace ∨ c2.trace = c1.trace ++ [Event.lock, Event.unlock]) ∧
      (∀ r t, call = Call.start (some r) t → c1.httpLogger = none)) ∨
    (∃ r t w req key, call = Call.start (some r) t ∧ c1.httpLogger = some w ∧
      c2.httpLogger = some w ∧ r.Request = some req ∧
      (Context.Value req.ctx httpStatsKey = Any.string key ∨
        (Context.Value req.ctx httpStatsKey = Any.nil ∧ key = "none")) ∧
      c2.entry r.ptr = some
        { Key := key
          requestStats := { HeaderSize := dumpSize (u.DumpRequest req)
                            BodySize := req.ContentLength, Start := 0, Stop := 0 }
          responseStats := { HeaderSize := dumpSize (u.DumpResponse r)
                             BodySize := 0, Start := t, Stop := 0 } } ∧
      (∀ q, q ≠ r.ptr → c2.entry q = c1.entry q) ∧
      c2.trace = c1.trace ++ [Event.lock, Event.unlock]) ∨
    (∃ r n now w t req, call = Call.finish (some r) n now ∧ c1.httpLogger = some w ∧
      c1.entry r.ptr = some t ∧ r.Request = some req ∧
      c2.httpLogger = some (w.Write (statsLine
        { t with responseStats := { t.responseStats with BodySize := n, Stop := now } }
        r.StatusCode req.URL)) ∧
      c2.entry r.ptr = none ∧
      (∀ q, q ≠ r.ptr → c2.entry q = c1.entry q) ∧
      c2.trace = c1.trace ++ [Event.lock, Event.write r.ptr, Event.unlock]) := by
  cases call with
  | start res t =>
    simp only [Call.apply] at h
    cases hw : c1.httpLogger with
    | none =>
      rw [start_disabled u c1 res t hw] at h
      cases h
      exact Or.inl ⟨hw, fun _ => rfl, Or.inl rfl, fun _ _ _ => rfl⟩
    | some w =>
      obtain ⟨r, req, key, hr, hreq, hd, hkey⟩ := start_ok_inv u c1 c2 res t w hw h
      cases hr
      obtain ⟨c', hs, hl, he, ho, ht⟩ := start_live u c1 r t w req key hw hreq hd hkey
      rw [h] at hs
      cases hs
      exact Or.inr (Or.inl ⟨r, t, w, req, key, rfl, rfl, hl, hreq, hkey, he, ho, ht⟩)
  | finish res n now =>
    simp only [Call.apply] at h
    have miss : (∀ r, res = some r → c1.entry r.ptr = none) →
        (c2.httpLogger = c1.httpLogger ∧ (∀ q, c2.entry q = c1.entry q) ∧
          (c2.trace = c1.trace ∨ c2.trace = c1.trace ++ [Event.lock, Event.unlock]) ∧
          (∀ r t, Call.finish res n now = Call.start (some r) t → c1.httpLogger = none)) := by
      intro hm
      rcases finish_miss c1 res n now hm with h' | h' <;> rw [h] at h' <;> cases h'
      · exact ⟨rfl, fun _ => rfl, Or.inl rfl, fun _ _ e => by cases e⟩
      · exact ⟨rfl, fun _ => rfl, Or.inr rfl, fun _ _ e => by cases e⟩
    cases res with
    | none => exact Or.inl (miss (fun r hr => by cases hr))
    | some r =>
      cases he : c1.entry r.ptr with
      | none => exact Or.inl (miss (fun r' hr => by cases hr; exact he))
      | some t =>
        cases hw : c1.httpLogger with
        | none =>
          rw [finish_disabled c1 (some r) n now hw] at h
          cases h
          exact Or.inl ⟨hw, fun _ => rfl, Or.inl rfl, fun _ _ e => by cases e⟩
        | some w =>
          cases hreq : r.Request with
          | none =>
            rw [finish_orphan c1 r n now w t hw he hreq] at h
            cases h
          | some req =>
            obtain ⟨c', hf, hl, he2, ho, ht⟩ := finish_live c1 r n now w t req hw he hreq
            rw [h] at hf
            cases hf
            exact Or.inr (Or.inr ⟨r, n, now, w, t, req, rfl, rfl, he, hreq, hl, he2, ho, ht⟩)

/-! ## Closing a transfer that is not open -/

/-- C4: for every client state and every response without a live entry in the
table (the table may be nil, empty, or hold entries of other responses), and
also for a nil response, `finishResponseStats` returns without a panic, leaves
the sink and the table as they were, and records no write. -/
theorem finishResponseStats_unopened (c : Client) (res : Option Response) (n : Int) (now : Time)
    (h : ∀ r, res = some r → c.entry r.ptr = none) :
    ∃ c', finishResponseStats c res n now = .ok c' ∧
      c'.httpLogger = c.httpLogger ∧ c'.output = c.output ∧ c'.transfers = c.transfers ∧
      (c'.trace = c.trace ∨ c'.trace = c.trace ++ [Event.lock, Event.unlock]) := by
  rcases finish_miss c res n now h with h' | h'
  · exact ⟨c, h', rfl, rfl, rfl, Or.inl rfl⟩
  · exact ⟨_, h', rfl, rfl, rfl, Or.inr rfl⟩

theorem finishResponseStats_unopened_witness :
    (∀ r, some exRes2 = some r → exOpened.entry r.ptr = none) ∧
    (∃ c', finishResponseStats exOpened (some exRes2) 512 2000 = .ok c' ∧
      c'.httpLogger = exOpened.httpLogger ∧ c'.output = exOpened.output ∧
      c'.transfers = exOpened.transfers ∧
      (c'.trace = exOpened.trace ∨ c'.trace = exOpened.trace ++ [Event.lock, Event.unlock])) :=
  have h : ∀ r, some exRes2 = some r → exOpened.entry r.ptr = none := by
    intro r hr
    cases hr
    decide
  ⟨h, finishResponseStats_unopened exOpened (some exRes2) 512 2000 h⟩

/-! ## The disabled logger -/

/-- C5: when no sink is stored, every sequence of `startResponseStats` and
`finishResponseStats` calls, of any length and with any arguments, returns
without a panic and leaves the client exactly as it was: the table is neither
initialised nor populated and no lock or write is recorded. -/
theorem run_disabled (u : Httputil) (calls : List Call) (c : Client)
    (h : c.httpLogger = none) : run u calls c = .ok c := by
  induction calls with
  | nil => rfl
  | cons call rest ih =>
    cases call with
    | start res t => simp [run, Call.apply, start_disabled u c res t h, ih]
    | finish res n now => simp [run, Call.apply, finish_disabled c res n now h, ih]

theorem run_disabled_witness :
    exDisabled.httpLogger = none ∧
    run exUtil [Call.start (some exRes) 1000, Call.start none 5, Call.finish (some exRes) 4096 2000,
      Call.finish (some exOrphan) 1 2] exDisabled = .ok exDisabled :=
  ⟨rfl, run_disabled exUtil _ exDisabled rfl⟩

/-! ## Closing twice -/

/-- C1: with the logger enabled, after `startResponseStats` has opened `res`,
`finishResponseStats res n1` writes exactly one line to the sink, the line of
the opened transfer completed with body size `n1`, and removes the entry; a
following `finishResponseStats res n2` returns without a panic and leaves the
table and the sink exactly as the first call left them. -/
theorem finishResponseStats_twice (u : Httputil) (c c1 : Client) (w : Writer) (res : Response)
    (start : Time) (n1 n2 : Int) (now1 now2 : Time)
    (hw : c.httpLogger = some w)
    (hstart : startResponseStats u c (some res) start = .ok c1) :
    ∃ t c2 c3,
      c1.entry res.ptr = some t ∧
      finishResponseStats c1 (some res) n1 now1 = .ok c2 ∧
      c2.output = w.written ++ [statsLine
        { t with responseStats := { t.responseStats with BodySize := n1, Stop := now1 } }
        res.StatusCode (res.Request.bind Request.URL)] ∧
      c2.entry res.ptr = none ∧
      finishResponseStats c2 (some res) n2 now2 = .ok c3 ∧
      c3.transfers = c2.transfers ∧ c3.httpLogger = c2.httpLogger ∧ c3.output = c2.output := by
  obtain ⟨r, req, key, hr, hreq, hd, hkey⟩ := start_ok_inv u c c1 (some res) start w hw hstart
  cases hr
  obtain ⟨c1', hs, hl1, he1, -, -⟩ := start_live u c res start w req key hw hreq hd hkey
  rw [hstart] at hs
  cases hs
  obtain ⟨c2, hf, hl2, he2, -, -⟩ := finish_live c1 res n1 now1 w _ req hl1 he1 hreq
  have h3 : ∃ c3, finishResponseStats c2 (some res) n2 now2 = .ok c3 ∧
      c3.transfers = c2.transfers ∧ c3.httpLogger = c2.httpLogger ∧ c3.output = c2.output := by
    rcases finish_miss c2 (some res) n2 now2 (fun r hr => by cases hr; exact he2) with h | h
    · exact ⟨_, h, rfl, rfl, rfl⟩
    · exact ⟨_, h, rfl, rfl, rfl⟩
  obtain ⟨c3, h3, h3t, h3l, h3o⟩ := h3
  refine ⟨_, c2, c3, he1, hf, ?_, he2, h3, h3t, h3l, h3o⟩
  simp [Client.output, hl2, Writer.Write, hreq]

theorem finishResponseStats_twice_witness :
    exClient.httpLogger = some { written := [] } ∧
    startResponseStats exUtil exClient (some exRes) 1000 = .ok exOpened ∧
    ∃ t c2 c3,
      exOpened.entry exRes.ptr = some t ∧
      finishResponseStats exOpened (some exRes) 4096 50001000 = .ok c2 ∧
      c2.output = ([] : List String) ++ [statsLine
        { t with responseStats := { t.responseStats with BodySize := 4096, Stop := 50001000 } }
        exRes.StatusCode (exRes.Request.bind Request.URL)] ∧
      c2.entry exRes.ptr = none ∧
      finishResponseStats c2 (some exRes) 7 50002000 = .ok c3 ∧
      c3.transfers = c2.transfers ∧ c3.httpLogger = c2.httpLogger ∧ c3.output = c2.output :=
  ⟨rfl, by decide,
    finishResponseStats_twice exUtil exClient exOpened { written := [] } exRes 1000 4096 7
      50001000 50002000 rfl (by decide)⟩

end lfsapi

namespace lfsapi

/-! ## The key -/

theorem Context.Value_untagged (ctx : Context) (key : CtxKey) (h : ∀ e ∈ ctx, e.1 ≠ key) :
    Context.Value ctx key = Any.nil := by
  induction ctx with
  | nil => rfl
  | cons e rest ih =>
    obtain ⟨k, v⟩ := e
    have hk : ¬ k = key := h (k, v) (List.mem_cons_self _ _)
    simp only [Context.Value, hk, if_false]
    exact ih (fun e he => h e (List.mem_cons_of_mem _ he))

/-- C6: for every request `r` and string `k`, `LogRequest r k` returns a request.
With the logger enabled, `startResponseStats` on a response to that request
never panics on the type assertion of the stored value, and when the header
dump of the request does not panic (the request has a `RequestURI` or a URL)
it returns and the transfer it records has `Key = k`.  For a response to a
request whose context holds no value under `httpStatsKey` the same holds with
`Key = "none"`. -/
theorem key_round_trip (u : Httputil) (c : Client) (w : Writer) (r : Request) (k : String)
    (res : Response) (start : Time) (hw : c.httpLogger = some w) :
    (∃ tagged, LogRequest (some r) k = .ok tagged ∧
      startResponseStats u c (some { res with Request := some tagged }) start ≠
        .error Fault.typeAssert ∧
      ((r.RequestURI = "" → r.URL ≠ none) →
        ∃ c' t, startResponseStats u c (some { res with Request := some tagged }) start = .ok c' ∧
          c'.entry res.ptr = some t ∧ t.Key = k)) ∧
    ((∀ e ∈ r.ctx, e.1 ≠ httpStatsKey) →
      startResponseStats u c (some { res with Request := some r }) start ≠
        .error Fault.typeAssert ∧
      ((r.RequestURI = "" → r.URL ≠ none) →
        ∃ c' t, startResponseStats u c (some { res with Request := some r }) start = .ok c' ∧
          c'.entry res.ptr = some t ∧ t.Key = "none")) := by
  constructor
  · have hk : Context.Value (Context.WithValue r.ctx httpStatsKey (Any.string k)) httpStatsKey =
        Any.string k := by simp [Context.WithValue, Context.Value]
    refine ⟨{ r with ctx := Context.WithValue r.ctx httpStatsKey (Any.string k) }, rfl, ?_, ?_⟩
    · exact start_no_typeAssert u c
        { res with
          Request := some { r with ctx := Context.WithValue r.ctx httpStatsKey (Any.string k) } }
        start w _ k hw rfl (Or.inl hk)
    · intro hd
      obtain ⟨c', hs, -, he, -, -⟩ := start_live u c
        { res with
          Request := some { r with ctx := Context.WithValue r.ctx httpStatsKey (Any.string k) } }
        start w { r with ctx := Context.WithValue r.ctx httpStatsKey (Any.string k) } k hw rfl hd
        (Or.inl hk)
      exact ⟨c', _, hs, he, rfl⟩
  · intro h
    have hk := Context.Value_untagged r.ctx httpStatsKey h
    refine ⟨?_, ?_⟩
    · exact start_no_typeAssert u c { res with Request := some r } start w r "none" hw rfl
        (Or.inr ⟨hk, rfl⟩)
    · intro hd
      obtain ⟨c', hs, -, he, -, -⟩ := start_live u c { res with Request := some r }
        start w r "none" hw rfl hd (Or.inr ⟨hk, rfl⟩)
      exact ⟨c', _, hs, he, rfl⟩

theorem key_round_trip_witness :
    exClient.httpLogger = some { written := [] } ∧
    (exReq.RequestURI = "" → exReq.URL ≠ none) ∧
    (∀ e ∈ exReq.ctx, e.1 ≠ httpStatsKey) ∧
    (∃ tagged, LogRequest (some exReq) "upload-1" = .ok tagged ∧
      ∃ c' t, startResponseStats exUtil exClient (some { exRes2 with Request := some tagged }) 1000
          = .ok c' ∧ c'.entry exRes2.ptr = some t ∧ t.Key = "upload-1") ∧
    (∃ c' t, startResponseStats exUtil exClient (some { exRes2 with Request := some exReq }) 1000
        = .ok c' ∧ c'.entry exRes2.ptr = some t ∧ t.Key = "none") :=
  have h : ∀ e ∈ exReq.ctx, e.1 ≠ httpStatsKey := by decide
  have hd : exReq.RequestURI = "" → exReq.URL ≠ none := by decide
  have h1 := (key_round_trip exUtil exClient { written := [] } exReq "upload-1" exRes2 1000 rfl).1
  have h2 := (key_round_trip exUtil exClient { written := [] } exReq "upload-1" exRes2 1000 rfl).2 h
  ⟨rfl, hd, h,
    match h1 with
    | ⟨tagged, hl, _, hs⟩ => ⟨tagged, hl, hs hd⟩,
    h2.2 hd⟩

end lfsapi

namespace lfsapi

/-! ## Texts -/

theorem splitOnChar_of_not_mem (sep : Char) (a : List Char) (h : sep ∉ a) :
    splitOnChar sep a = [a] := by
  induction a with
  | nil => rfl
  | cons ch rest ih =>
    simp only [List.mem_cons, not_or] at h
    have hne : ¬ ch = sep := fun e => h.1 e.symm
    simp [splitOnChar, hne, ih h.2]

theorem splitOnChar_append (sep : Char) (a b : List Char) (h : sep ∉ a) :
    splitOnChar sep (a ++ sep :: b) = a :: splitOnChar sep b := by
  induction a with
  | nil => simp [splitOnChar]
  | cons ch rest ih =>
    simp only [List.mem_cons, not_or] at h
    have hne : ¬ ch = sep := fun e => h.1 e.symm
    simp [splitOnChar, hne, ih h.2]

theorem splitOnChar_joinWith (sep : Char) (toks : List (List Char)) (hne : toks ≠ [])
    (h : ∀ t ∈ toks, sep ∉ t) : splitOnChar sep (joinWith sep toks) = toks := by
  induction toks with
  | nil => exact absurd rfl hne
  | cons t ts ih =>
    cases ts with
    | nil => simpa [joinWith] using splitOnChar_of_not_mem sep t (h t (List.mem_cons_self _ _))
    | cons t2 ts2 =>
      simp only [joinWith]
      rw [splitOnChar_append sep t _ (h t (List.mem_cons_self _ _))]
      have := ih (by simp) (fun x hx => h x (List.mem_cons_of_mem _ hx))
      simp only [joinWith] at this
      rw [this]

theorem not_mem_joinWith (ch sep : Char) (hs : ch ≠ sep) (toks : List (List Char))
    (h : ∀ t ∈ toks, ch ∉ t) : ch ∉ joinWith sep toks := by
  induction toks with
  | nil => simp [joinWith]
  | cons t ts ih =>
    cases ts with
    | nil => simpa [joinWith] using h t (List.mem_cons_self _ _)
    | cons t2 ts2 =>
      have := ih (fun x hx => h x (List.mem_cons_of_mem _ hx))
      simp only [joinWith, List.mem_append, List.mem_cons, not_or]
      exact ⟨h t (List.mem_cons_self _ _), hs, this⟩

theorem toDigitsCore_not_mem (ch : Char) (hch : ∀ d, d < 10 → Nat.digitChar d ≠ ch)
    (fuel n : Nat) (ds : List Char) (h : ch ∉ ds) :
    ch ∉ Nat.toDigitsCore 10 fuel n ds := by
  induction fuel generalizing n ds with
  | zero => simpa [Nat.toDigitsCore] using h
  | succ f ih =>
    have h2 : ch ∉ Nat.digitChar (n % 10) :: ds := by
      simp only [List.mem_cons, not_or]
      exact ⟨fun e => hch _ (Nat.mod_lt _ (by decide)) e.symm, h⟩
    simp only [Nat.toDigitsCore]
    by_cases hz : n / 10 = 0
    · simpa [hz] using h2
    · simp only [hz, if_false]
      exact ih _ _ h2

/-- The decimal rendering of an integer holds digits and `-` only. -/
theorem fmtD_not_mem (ch : Char) (hch : ∀ d, d < 10 → Nat.digitChar d ≠ ch)
    (hm : ch ≠ '-') (n : Int) : ch ∉ (fmtD n).data := by
  cases n with
  | ofNat m =>
    have h2 : (fmtD (Int.ofNat m)).data = Nat.toDigits 10 m := rfl
    rw [h2]
    exact toDigitsCore_not_mem ch hch _ _ _ (by simp)
  | negSucc m =>
    have h2 : (fmtD (Int.negSucc m)).data = '-' :: Nat.toDigits 10 (m + 1) := rfl
    rw [h2]
    simp only [List.mem_cons, not_or]
    exact ⟨hm, toDigitsCore_not_mem ch hch _ _ _ (by simp)⟩

/-- The decimal rendering of a count is never the text `-1`. -/
theorem fmtD_ne_minus_one (n : Int) (h : 0 ≤ n) : fmtD n ≠ "-1" := by
  obtain ⟨m, rfl⟩ := Int.eq_ofNat_of_zero_le h
  intro e
  have hd : '-' ∈ Nat.toDigits 10 m := by
    have h1 : (fmtD (m : Int)).data = ("-1" : String).data := by rw [e]
    have h2 : (fmtD (m : Int)).data = Nat.toDigits 10 m := rfl
    rw [h2] at h1
    rw [h1]
    decide
  exact toDigitsCore_not_mem '-' (by decide) _ _ _ (by simp) hd

/-! ## The line -/

theorem Time.Sub_eq (t u : Time) (h1 : minDuration ≤ t - u) (h2 : t - u ≤ maxDuration) :
    Time.Sub t u = t - u := by
  unfold Time.Sub
  rw [if_neg (not_lt.mpr h1), if_neg (not_lt.mpr h2)]

/-- The characters of the eight tokens joined by single spaces. -/
theorem intercalate_data (k a b c d e f g : String) :
    (String.intercalate " " [k, a, b, c, d, e, f, g]).data =
      joinWith ' ' [k.data, a.data, b.data, c.data, d.data, e.data, f.data, g.data] := by
  have sp : (" " : String).data = [' '] := rfl
  simp only [String.intercalate, String.intercalate.go, String.data_append, joinWith, sp,
    List.append_assoc, List.singleton_append, List.cons_append, List.nil_append]

/-- C7: for a present response with a present request and URL, `writeHTTPStats`
makes exactly one write to the sink, of the text made of the tokens `key=`,
`reqheader=`, `reqbody=`, `resheader=`, `resbody=`, `restime=`, `status=` and
`url=` with their values, in this order, joined by single spaces and ended by a
newline.  `restime` is `Stop.Sub(Start)` of the response record in nanoseconds,
which is `Stop - Start` whenever that difference is a `time.Duration`; `status`
is the response's status code and `url` the text of the request's URL.  When
neither the key nor the URL holds a space or a newline, the payload is exactly
one line and splitting it at the spaces gives back the eight tokens. -/
theorem writeHTTPStats_line (w : Writer) (res : Response) (req : Request) (url : String)
    (t : httpTransfer) (hreq : res.Request = some req) (hurl : req.URL = some url) :
    ∃ toks line,
      toks =
        ["key=" ++ t.Key,
         "reqheader=" ++ toString t.requestStats.HeaderSize,
         "reqbody=" ++ toString t.requestStats.BodySize,
         "resheader=" ++ toString t.responseStats.HeaderSize,
         "resbody=" ++ toString t.responseStats.BodySize,
         "restime=" ++ toString (Time.Sub t.responseStats.Stop t.responseStats.Start),
         "status=" ++ toString res.StatusCode,
         "url=" ++ url] ∧
      line = String.intercalate " " toks ∧
      writeHTTPStats w (some res) t = .ok { written := w.written ++ [line ++ "\n"] } ∧
      (minDuration ≤ t.responseStats.Stop - t.responseStats.Start →
        t.responseStats.Stop - t.responseStats.Start ≤ maxDuration →
        Time.Sub t.responseStats.Stop t.responseStats.Start =
          t.responseStats.Stop - t.responseStats.Start) ∧
      ((∀ ch, ch = ' ' ∨ ch = '\n' → ch ∉ t.Key.data ∧ ch ∉ url.data) →
        payloadLines (line ++ "\n") = [line, ""] ∧ lineTokens line = toks) := by
  refine ⟨_, _, rfl, rfl, ?_, Time.Sub_eq _ _, ?_⟩
  · have sp : ∀ (a b x : String), " " ++ a = b → " " ++ (a ++ x) = b ++ x := by
      intro a b x h
      rw [← String.append_assoc, h]
    simp only [writeHTTPStats, deref, hreq, hurl, bind, Except.bind, pure, Except.pure,
      Writer.Write, statsLine, fmtD, fmtURL, String.intercalate, String.intercalate.go,
      String.append_assoc]
    rw [sp "reqheader=" " reqheader=" _ (by decide), sp "reqbody=" " reqbody=" _ (by decide),
      sp "resheader=" " resheader=" _ (by decide), sp "resbody=" " resbody=" _ (by decide),
      sp "restime=" " restime=" _ (by decide), sp "status=" " status=" _ (by decide),
      sp "url=" " url=" _ (by decide)]
  · intro hfree
    have tok : ∀ ch, ch = ' ' ∨ ch = '\n' →
        ∀ x ∈ [("key=" ++ t.Key).data,
          ("reqheader=" ++ toString t.requestStats.HeaderSize).data,
          ("reqbody=" ++ toString t.requestStats.BodySize).data,
          ("resheader=" ++ toString t.responseStats.HeaderSize).data,
          ("resbody=" ++ toString t.responseStats.BodySize).data,
          ("restime=" ++ toString (Time.Sub t.responseStats.Stop t.responseStats.Start)).data,
          ("status=" ++ toString res.StatusCode).data,
          ("url=" ++ url).data], ch ∉ x := by
      intro ch hch x hx
      have hd : ∀ n : Int, ch ∉ (toString n).data := by
        intro n
        rcases hch with rfl | rfl
        · exact fmtD_not_mem ' ' (by decide) (by decide) n
        · exact fmtD_not_mem '\n' (by decide) (by decide) n
      have hlit : ∀ lit ∈ ["key=", "reqheader=", "reqbody=", "resheader=", "resbody=",
          "restime=", "status=", "url="], ch ∉ String.data lit := by
        rcases hch with rfl | rfl <;> decide
      simp only [List.mem_cons, List.mem_singleton, List.not_mem_nil, or_false] at hx
      rcases hx with rfl | rfl | rfl | rfl | rfl | rfl | rfl | rfl <;>
        simp only [String.data_append, List.mem_append, not_or]
      · exact ⟨hlit _ (by simp), (hfree ch hch).1⟩
      · exact ⟨hlit _ (by simp), hd _⟩
      · exact ⟨hlit _ (by simp), hd _⟩
      · exact ⟨hlit _ (by simp), hd _⟩
      · exact ⟨hlit _ (by simp), hd _⟩
      · exact ⟨hlit _ (by simp), hd _⟩
      · exact ⟨hlit _ (by simp), hd _⟩
      · exact ⟨hlit _ (by simp), (hfree ch hch).2⟩
    constructor
    · have hnl : '\n' ∉ (String.intercalate " "
          ["key=" ++ t.Key,
           "reqheader=" ++ toString t.requestStats.HeaderSize,
           "reqbody=" ++ toString t.requestStats.BodySize,
           "resheader=" ++ toString t.responseStats.HeaderSize,
           "resbody=" ++ toString t.responseStats.BodySize,
           "restime=" ++ toString (Time.Sub t.responseStats.Stop t.responseStats.Start),
           "status=" ++ toString res.StatusCode,
           "url=" ++ url]).data := by
        rw [intercalate_data]
        exact not_mem_joinWith '\n' ' ' (by decide) _ (tok '\n' (Or.inr rfl))
      have nl : ("\n" : String).data = ['\n'] := rfl
      simp only [payloadLines, String.data_append, nl]
      rw [splitOnChar_append '\n' _ [] hnl]
      rfl
    · simp only [lineTokens]
      rw [intercalate_data, splitOnChar_joinWith ' ' _ (by simp) (tok ' ' (Or.inl rfl))]
      rfl

theorem writeHTTPStats_line_witness :
    exRes.Request = some { exReq with ctx := [(httpStatsKey, Any.string "upload-1")] } ∧
    exReq.URL = some "https://example.com/obj" ∧
    writeHTTPStats { written := [] } (some exRes) exDone = .ok
      { written := ["key=upload-1 reqheader=96 reqbody=-1 resheader=120 resbody=4096 " ++
          "restime=50000000 status=200 url=https://example.com/obj\n"] } ∧
    Time.Sub exDone.responseStats.Stop exDone.responseStats.Start = 50000000 ∧
    lineTokens ("key=upload-1 reqheader=96 reqbody=-1 resheader=120 resbody=4096 " ++
        "restime=50000000 status=200 url=https://example.com/obj") =
      ["key=upload-1", "reqheader=96", "reqbody=-1", "resheader=120", "resbody=4096",
        "restime=50000000", "status=200", "url=https://example.com/obj"] := by
  obtain ⟨toks, line, htoks, hline, hwrite, hsub, hsplit⟩ :=
    writeHTTPStats_line { written := [] } exRes
      { exReq with ctx := [(httpStatsKey, Any.string "upload-1")] } "https://example.com/obj"
      exDone rfl rfl
  have hfree : ∀ ch, ch = ' ' ∨ ch = '\n' →
      ch ∉ exDone.Key.data ∧ ch ∉ ("https://example.com/obj" : String).data := by
    intro ch hch
    rcases hch with rfl | rfl <;> decide
  have htok := (hsplit hfree).2
  subst hline
  subst htoks
  refine ⟨rfl, rfl, hwrite.trans (by decide), (hsub (by decide) (by decide)).trans (by decide), ?_⟩
  exact (congrArg lineTokens (by decide)).trans (htok.trans (by decide))

end lfsapi

namespace lfsapi

/-! ## The body size of the response -/

/-- C8: for a transfer opened on a request of any declared content length, `-1`
included, the declared length is recorded in the request record only: the
response record is opened with body size `0`, and the line written by
`finishResponseStats res n` has `reqbody` equal to the declared length and
`resbody` equal to `n`, which for a count `n ≥ 0` is never the text `-1`. -/
theorem resbody_from_argument (u : Httputil) (c c1 : Client) (w : Writer) (res : Response)
    (req : Request) (start : Time) (n : Int) (now : Time)
    (hw : c.httpLogger = some w) (hreq : res.Request = some req)
    (hstart : startResponseStats u c (some res) start = .ok c1) :
    ∃ c2 key,
      c1.entry res.ptr = some
        { Key := key
          requestStats := { HeaderSize := dumpSize (u.DumpRequest req)
                            BodySize := req.ContentLength, Start := 0, Stop := 0 }
          responseStats := { HeaderSize := dumpSize (u.DumpResponse res)
                             BodySize := 0, Start := start, Stop := 0 } } ∧
      finishResponseStats c1 (some res) n now = .ok c2 ∧
      c2.output = w.written ++
        ["key=" ++ key ++
         " reqheader=" ++ toString (dumpSize (u.DumpRequest req)) ++
         " reqbody=" ++ toString req.ContentLength ++
         " resheader=" ++ toString (dumpSize (u.DumpResponse res)) ++
         " resbody=" ++ toString n ++
         " restime=" ++ toString (Time.Sub now start) ++
         " status=" ++ toString res.StatusCode ++
         " url=" ++ fmtURL req.URL ++ "\n"] ∧
      (0 ≤ n → toString n ≠ "-1") := by
  obtain ⟨r, req', key, hr, hreq', hd, hkey⟩ := start_ok_inv u c c1 (some res) start w hw hstart
  cases hr
  rw [hreq] at hreq'
  cases hreq'
  obtain ⟨c1', hs, hl1, he1, -, -⟩ := start_live u c res start w req key hw hreq hd hkey
  rw [hstart] at hs
  cases hs
  obtain ⟨c2, hf, hl2, -, -, -⟩ := finish_live c1 res n now w _ req hl1 he1 hreq
  refine ⟨c2, key, he1, hf, ?_, fmtD_ne_minus_one n⟩
  simp [Client.output, hl2, Writer.Write, statsLine, fmtD]

theorem resbody_from_argument_witness :
    exClient.httpLogger = some { written := [] } ∧
    exRes.Request = some { exReq with ctx := [(httpStatsKey, Any.string "upload-1")] } ∧
    startResponseStats exUtil exClient (some exRes) 1000 = .ok exOpened ∧
    ∃ c2 key,
      exOpened.entry exRes.ptr = some
        { Key := key
          requestStats := { HeaderSize := 96, BodySize := -1, Start := 0, Stop := 0 }
          responseStats := { HeaderSize := 120, BodySize := 0, Start := 1000, Stop := 0 } } ∧
      finishResponseStats exOpened (some exRes) 4096 50001000 = .ok c2 ∧
      c2.output = [] ++
        ["key=" ++ key ++ " reqheader=" ++ "96" ++ " reqbody=" ++ "-1" ++ " resheader=" ++ "120" ++
         " resbody=" ++ "4096" ++ " restime=" ++ "50000000" ++ " status=" ++ "200" ++
         " url=" ++ "https://example.com/obj" ++ "\n"] ∧
      ((0 : Int) ≤ 4096 → toString (4096 : Int) ≠ "-1") :=
  ⟨rfl, rfl, by decide,
    resbody_from_argument exUtil exClient exOpened { written := [] } exRes
      { exReq with ctx := [(httpStatsKey, Any.string "upload-1")] } 1000 4096 50001000
      rfl rfl (by decide)⟩

end lfsapi

namespace lfsapi

/-! ## Sequences of calls -/

theorem run_cons_ok (u : Httputil) (call : Call) (rest : List Call) (c0 c : Client)
    (h : run u (call :: rest) c0 = .ok c) :
    ∃ c1, call.apply u c0 = .ok c1 ∧ run u rest c1 = .ok c := by
  simp only [run] at h
  cases h1 : call.apply u c0 with
  | error e => rw [h1] at h; cases h
  | ok c1 => rw [h1] at h; exact ⟨c1, rfl, h⟩

theorem linesFor_idle (p : Nat) (tr : List Event) :
    linesFor p (tr ++ [Event.lock, Event.unlock]) = linesFor p tr := by
  simp [linesFor, List.count_append, List.count_cons]

theorem linesFor_write (p q : Nat) (tr : List Event) :
    linesFor p (tr ++ [Event.lock, Event.write q, Event.unlock]) =
      linesFor p tr + (if q = p then 1 else 0) := by
  simp [linesFor, List.count_append, List.count_cons]

theorem writes_idle (tr : List Event) : writes (tr ++ [Event.lock, Event.unlock]) = writes tr := by
  simp [writes, List.countP_append, List.countP_cons]

theorem writes_write (q : Nat) (tr : List Event) :
    writes (tr ++ [Event.lock, Event.write q, Event.unlock]) = writes tr + 1 := by
  simp [writes, List.countP_append, List.countP_cons]

theorem Client.live_le_one (c : Client) (p : Nat) : c.live p ≤ 1 := by
  unfold Client.live
  split <;> omega

/-- One returning call: lines written for `p` plus live entries of `p` grow by
at most the number of opens of `p`. -/
theorem step_count (u : Httputil) (c1 c2 : Client) (call : Call)
    (h : call.apply u c1 = .ok c2) (p : Nat) :
    linesFor p c2.trace + c2.live p ≤ linesFor p c1.trace + c1.live p + startsFor p [call] := by
  rcases step_spec u c1 c2 call h with ⟨-, he, ht, -⟩ | ⟨r, t, w, req, key, rfl, -, -, -, -, he, ho, ht⟩ |
      ⟨r, n, now, w, t, req, rfl, -, he1, -, -, he2, ho, ht⟩
  · have hl : c2.live p = c1.live p := by simp [Client.live, he p]
    rcases ht with ht | ht <;> rw [ht, hl] <;> simp [linesFor_idle]
  · rw [ht, linesFor_idle]
    by_cases hp : p = r.ptr
    · subst hp
      have := c2.live_le_one r.ptr
      simp [startsFor]
      omega
    · have hl : c2.live p = c1.live p := by simp [Client.live, ho p hp]
      rw [hl]
      omega
  · rw [ht, linesFor_write]
    by_cases hp : p = r.ptr
    · subst hp
      have h1 : c1.live r.ptr = 1 := by simp [Client.live, he1]
      have h2 : c2.live r.ptr = 0 := by simp [Client.live, he2]
      simp [h1, h2, startsFor]
    · have hl : c2.live p = c1.live p := by simp [Client.live, ho p hp]
      have hq : ¬ r.ptr = p := fun e => hp e.symm
      simp [hl, hq]

/-- One returning call: the sink grows by one payload per recorded write. -/
theorem step_output (u : Httputil) (c1 c2 : Client) (call : Call)
    (h : call.apply u c1 = .ok c2) :
    c2.output.length + writes c1.trace = c1.output.length + writes c2.trace := by
  rcases step_spec u c1 c2 call h with ⟨hl, -, ht, -⟩ | ⟨r, t, w, req, key, -, hl1, hl2, -, -, -, -, ht⟩ |
      ⟨r, n, now, w, t, req, -, hl1, -, -, hl2, -, -, ht⟩
  · have ho : c2.output = c1.output := by simp [Client.output, hl]
    rcases ht with ht | ht
    · rw [ht, ho]
    · rw [ht, ho, writes_idle]
  · have ho : c2.output = c1.output := by simp [Client.output, hl1, hl2]
    rw [ht, ho, writes_idle]
  · rw [ht, writes_write]
    simp [Client.output, hl1, hl2, Writer.Write]
    omega

theorem startsFor_cons (p : Nat) (call : Call) (rest : List Call) :
    startsFor p (call :: rest) = startsFor p [call] + startsFor p rest := by
  simp [startsFor, List.countP_cons]
  omega

theorem run_count (u : Httputil) (calls : List Call) (c0 c : Client)
    (h : run u calls c0 = .ok c) (p : Nat) :
    linesFor p c.trace + c.live p ≤ linesFor p c0.trace + c0.live p + startsFor p calls := by
  induction calls generalizing c0 with
  | nil =>
    simp only [run] at h
    cases h
    simp [startsFor]
  | cons call rest ih =>
    obtain ⟨c1, h1, h2⟩ := run_cons_ok u call rest c0 c h
    have a := step_count u c0 c1 call h1 p
    have b := ih c1 h2
    rw [startsFor_cons]
    omega

theorem run_output (u : Httputil) (calls : List Call) (c0 c : Client)
    (h : run u calls c0 = .ok c) :
    c.output.length + writes c0.trace = c0.output.length + writes c.trace := by
  induction calls generalizing c0 with
  | nil =>
    simp only [run] at h
    cases h
    rfl
  | cons call rest ih =>
    obtain ⟨c1, h1, h2⟩ := run_cons_ok u call rest c0 c h
    have a := step_output u c0 c1 call h1
    have b := ih c1 h2
    omega

end lfsapi

namespace lfsapi

/-! ## Each transfer is written at most once -/

/-- C2: for every sequence of `startResponseStats` and `finishResponseStats`
calls that runs on an enabled client from an empty table: (1) for each response
address the number of lines written for it, plus one if its entry is still live,
never exceeds the number of `startResponseStats` calls made on it; (2) the sink
grew by exactly one payload per recorded write; (3) every call in the sequence
either writes nothing and removes no entry, or is a `finishResponseStats` call
on a response with a live entry, which writes exactly one line (that of the
entry), removes that entry and leaves all other entries as they were. -/
theorem emitted_at_most_once (u : Httputil) (calls : List Call) (c0 c : Client) (w : Writer)
    (hw : c0.httpLogger = some w) (hempty : ∀ p, c0.entry p = none)
    (hrun : run u calls c0 = .ok c) :
    (∀ p, linesFor p c.trace + c.live p ≤ linesFor p c0.trace + startsFor p calls) ∧
    (c.output.length + writes c0.trace = w.written.length + writes c.trace) ∧
    (∀ pre call post c1 c2, calls = pre ++ call :: post → run u pre c0 = .ok c1 →
      call.apply u c1 = .ok c2 →
      (c2.output = c1.output ∧ (∀ p, linesFor p c2.trace = linesFor p c1.trace) ∧
        (∀ p, c1.live p ≤ c2.live p)) ∨
      (∃ r n now t, call = Call.finish (some r) n now ∧ c1.entry r.ptr = some t ∧
        c2.output = c1.output ++ [statsLine
          { t with responseStats := { t.responseStats with BodySize := n, Stop := now } }
          r.StatusCode (r.Request.bind Request.URL)] ∧
        linesFor r.ptr c2.trace = linesFor r.ptr c1.trace + 1 ∧
        c2.entry r.ptr = none ∧
        (∀ q, q ≠ r.ptr → c2.entry q = c1.entry q ∧
          linesFor q c2.trace = linesFor q c1.trace))) := by
  refine ⟨?_, ?_, ?_⟩
  · intro p
    have h := run_count u calls c0 c hrun p
    have h0 : c0.live p = 0 := by simp [Client.live, hempty p]
    omega
  · have h := run_output u calls c0 c hrun
    have h0 : c0.output = w.written := by simp [Client.output, hw]
    rw [h0] at h
    exact h
  · intro pre call post c1 c2 _ _ hstep
    rcases step_spec u c1 c2 call hstep with ⟨hl, he, ht, -⟩ |
        ⟨r, t, w', req, key, -, hl1, hl2, -, -, he, ho, ht⟩ |
        ⟨r, n, now, w', t, req, rfl, hl1, he1, hreq, hl2, he2, ho, ht⟩
    · left
      refine ⟨by simp [Client.output, hl], ?_, fun p => by simp [Client.live, he p]⟩
      intro p
      rcases ht with ht | ht <;> rw [ht]
      rw [linesFor_idle]
    · left
      refine ⟨by simp [Client.output, hl1, hl2], fun p => by rw [ht, linesFor_idle], ?_⟩
      intro p
      by_cases hp : p = r.ptr
      · subst hp
        have := c1.live_le_one r.ptr
        simpa [Client.live, he] using this
      · simp [Client.live, ho p hp]
    · right
      refine ⟨r, n, now, t, rfl, he1, ?_, ?_, he2, ?_⟩
      · simp [Client.output, hl1, hl2, Writer.Write, hreq]
      · rw [ht, linesFor_write]
        simp
      · intro q hq
        refine ⟨ho q hq, ?_⟩
        rw [ht, linesFor_write]
        have : ¬ r.ptr = q := fun e => hq e.symm
        simp [this]

theorem emitted_at_most_once_witness :
    exClient.httpLogger = some { written := [] } ∧
    (∀ p, exClient.entry p = none) ∧
    run exUtil [Call.start (some exRes) 1000, Call.finish (some exRes) 4096 50001000,
        Call.finish (some exRes) 7 50002000] exClient =
      .ok { httpLogger := some { written := ["key=upload-1 reqheader=96 reqbody=-1 " ++
              "resheader=120 resbody=4096 restime=50000000 status=200 " ++
              "url=https://example.com/obj\n"] }
            transfers := some []
            trace := [Event.lock, Event.unlock, Event.lock, Event.write 1, Event.unlock,
              Event.lock, Event.unlock] } ∧
    (∀ p, linesFor p [Event.lock, Event.unlock, Event.lock, Event.write 1, Event.unlock,
        Event.lock, Event.unlock] + 0 ≤
      linesFor p exClient.trace + startsFor p [Call.start (some exRes) 1000, Call.finish (some exRes) 4096 50001000,
        Call.finish (some exRes) 7 50002000]) :=
  have hrun : run exUtil [Call.start (some exRes) 1000, Call.finish (some exRes) 4096 50001000,
        Call.finish (some exRes) 7 50002000] exClient =
      .ok { httpLogger := some { written := ["key=upload-1 reqheader=96 reqbody=-1 " ++
              "resheader=120 resbody=4096 restime=50000000 status=200 " ++
              "url=https://example.com/obj\n"] }
            transfers := some []
            trace := [Event.lock, Event.unlock, Event.lock, Event.write 1, Event.unlock,
              Event.lock, Event.unlock] } := by decide
  ⟨rfl, fun _ => rfl, hrun,
    (emitted_at_most_once exUtil _ exClient _ { written := [] } rfl (fun _ => rfl) hrun).1⟩

end lfsapi

namespace lfsapi

/-! ## No cross-talk -/

theorem Table.filter_set_of_ne (m : Table) {k j : Nat} (v : httpTransfer) (h : j ≠ k) :
    (Table.set m k v).filter (fun e => decide (e.1 = j)) =
      m.filter (fun e => decide (e.1 = j)) := by
  have hk : ¬ k = j := fun e => h e.symm
  simp only [Table.set, Table.delete, List.filter_cons, hk, decide_False, Bool.false_eq_true,
    if_false, List.filter_filter]
  apply List.filter_congr
  intro e _
  by_cases he : e.1 = j
  · simp [he, h]
  · simp [he]

/-- With the logger enabled `startResponseStats` leaves exactly one transfer
under the address of its response and does not touch the other addresses. -/
theorem start_entries (u : Httputil) (c : Client) (r : Response) (t : Time) (w : Writer)
    (req : Request) (key : String)
    (hw : c.httpLogger = some w) (hreq : r.Request = some req)
    (hd : req.RequestURI = "" → req.URL ≠ none)
    (hkey : Context.Value req.ctx httpStatsKey = Any.string key ∨
      (Context.Value req.ctx httpStatsKey = Any.nil ∧ key = "none")) :
    ∃ c1, startResponseStats u c (some r) t = .ok c1 ∧
      c1.entries r.ptr =
        [{ Key := key
           requestStats := { HeaderSize := dumpSize (u.DumpRequest req)
                             BodySize := req.ContentLength, Start := 0, Stop := 0 }
           responseStats := { HeaderSize := dumpSize (u.DumpResponse r)
                              BodySize := 0, Start := t, Stop := 0 } }] ∧
      (∀ q, q ≠ r.ptr → c1.entries q = c.entries q) := by
  refine ⟨_, start_enabled u c r t w req key hw hreq hd hkey, ?_, ?_⟩
  · simp [Client.entries, Table.filter_set_self]
  · intro q hq
    cases hm : c.transfers with
    | none => simp [Client.entries, hm, Table.filter_set_of_ne _ _ hq]
    | some m => simp [Client.entries, hm, Table.filter_set_of_ne _ _ hq]

/-- A call on another response leaves the entry of `q` as it was. -/
theorem run_frame (u : Httputil) (calls : List Call) (c1 c2 : Client) (q : Nat)
    (hq : ∀ call ∈ calls, call.ptr ≠ some q) (h : run u calls c1 = .ok c2) :
    c2.entry q = c1.entry q := by
  induction calls generalizing c1 with
  | nil =>
    simp only [run] at h
    cases h
    rfl
  | cons call rest ih =>
    obtain ⟨c', h1, h2⟩ := run_cons_ok u call rest c1 c2 h
    rw [ih c' (fun x hx => hq x (List.mem_cons_of_mem _ hx)) h2]
    have hc := hq call (List.mem_cons_self _ _)
    rcases step_spec u c1 c' call h1 with ⟨-, he, -, -⟩ |
        ⟨r, t, w, req, key, rfl, -, -, -, -, -, ho, -⟩ |
        ⟨r, n, now, w, t, req, rfl, -, -, -, -, -, ho, -⟩
    · exact he q
    · exact ho q (fun e => hc (by simp [Call.ptr, e]))
    · exact ho q (fun e => hc (by simp [Call.ptr, e]))

/-- Opening other responses leaves the transfers held for `q` as they were. -/
theorem openCalls_frame (u : Httputil) (opens : List (Response × Time)) (c1 c2 : Client) (q : Nat)
    (hq : ∀ o ∈ opens, o.1.ptr ≠ q) (h : run u (openCalls opens) c1 = .ok c2) :
    c2.entries q = c1.entries q ∧ c2.httpLogger = c1.httpLogger := by
  induction opens generalizing c1 with
  | nil =>
    simp only [openCalls, List.map_nil, run] at h
    cases h
    exact ⟨rfl, rfl⟩
  | cons o rest ih =>
    obtain ⟨c', h1, h2⟩ := run_cons_ok u _ _ c1 c2 h
    obtain ⟨e2, l2⟩ := ih c' (fun x hx => hq x (List.mem_cons_of_mem _ hx)) h2
    rw [e2, l2]
    simp only [Call.apply] at h1
    cases hw : c1.httpLogger with
    | none =>
      rw [start_disabled u c1 _ _ hw] at h1
      cases h1
      exact ⟨rfl, hw⟩
    | some w =>
      obtain ⟨r, req, key, hr, hreq, hd, hkey⟩ := start_ok_inv u c1 c' _ _ w hw h1
      cases hr
      obtain ⟨cA, hs, -, ho⟩ := start_entries u c1 o.1 o.2 w req key hw hreq hd hkey
      obtain ⟨cB, hsB, hl, -, -, -⟩ := start_live u c1 o.1 o.2 w req key hw hreq hd hkey
      rw [h1] at hs hsB
      cases hs
      cases hsB
      exact ⟨ho q (fun e => hq o (List.mem_cons_self _ _) e.symm), hl⟩

end lfsapi

namespace lfsapi

/-- C3: after `startResponseStats` has been called, with the logger enabled, on
responses of pairwise distinct addresses, the table holds for each of them
exactly one transfer, the one built from its own request (key read from the
request's context, header sizes of its own dumps, declared content length) and
its own start time; and calls made on other responses, `startResponseStats` or
`finishResponseStats`, leave the entry of a response as it was. -/
theorem no_cross_talk (u : Httputil) (opens : List (Response × Time)) (c0 c : Client) (w : Writer)
    (hw : c0.httpLogger = some w)
    (hdist : (opens.map (fun o => o.1.ptr)).Nodup)
    (hrun : run u (openCalls opens) c0 = .ok c) :
    (∀ o ∈ opens, ∃ req key, o.1.Request = some req ∧
      (Context.Value req.ctx httpStatsKey = Any.string key ∨
        (Context.Value req.ctx httpStatsKey = Any.nil ∧ key = "none")) ∧
      c.entries o.1.ptr =
        [{ Key := key
           requestStats := { HeaderSize := dumpSize (u.DumpRequest req)
                             BodySize := req.ContentLength, Start := 0, Stop := 0 }
           responseStats := { HeaderSize := dumpSize (u.DumpResponse o.1)
                              BodySize := 0, Start := o.2, Stop := 0 } }] ∧
      c.entry o.1.ptr = some
        { Key := key
          requestStats := { HeaderSize := dumpSize (u.DumpRequest req)
                            BodySize := req.ContentLength, Start := 0, Stop := 0 }
          responseStats := { HeaderSize := dumpSize (u.DumpResponse o.1)
                             BodySize := 0, Start := o.2, Stop := 0 } }) ∧
    (∀ calls c1 c2 q, (∀ call ∈ calls, call.ptr ≠ some q) → run u calls c1 = .ok c2 →
      c2.entry q = c1.entry q) := by
  refine ⟨?_, fun calls c1 c2 q hq h => run_frame u calls c1 c2 q hq h⟩
  induction opens generalizing c0 with
  | nil => intro o ho; cases ho
  | cons o rest ih =>
    obtain ⟨c', h1, h2⟩ := run_cons_ok u _ _ c0 c hrun
    simp only [Call.apply] at h1
    obtain ⟨r, req, key, hr, hreq, hd, hkey⟩ := start_ok_inv u c0 c' _ _ w hw h1
    cases hr
    obtain ⟨cA, hs, hes, -⟩ := start_entries u c0 o.1 o.2 w req key hw hreq hd hkey
    obtain ⟨cB, hsB, hl, he, -, -⟩ := start_live u c0 o.1 o.2 w req key hw hreq hd hkey
    rw [h1] at hs hsB
    cases hs
    cases hsB
    simp only [List.map_cons, List.nodup_cons, List.mem_map, not_exists, not_and] at hdist
    intro x hx
    rcases List.mem_cons.mp hx with rfl | hx
    · have hne : ∀ y ∈ rest, y.1.ptr ≠ x.1.ptr := fun y hy e => hdist.1 y hy e
      refine ⟨req, key, hreq, hkey, ?_, ?_⟩
      · rw [(openCalls_frame u rest c' c x.1.ptr hne h2).1, hes]
      · rw [run_frame u (openCalls rest) c' c x.1.ptr ?_ h2, he]
        intro call hcall
        simp only [openCalls, List.mem_map] at hcall
        obtain ⟨y, hy, rfl⟩ := hcall
        simp only [Call.ptr, Option.map_some', ne_eq, Option.some.injEq]
        exact hne y hy
    · exact ih c' hl hdist.2 h2 x hx

theorem no_cross_talk_witness :
    exClient.httpLogger = some { written := [] } ∧
    ([(exRes, (1000 : Time)), (exRes2, 2000)].map (fun o => o.1.ptr)).Nodup ∧
    run exUtil (openCalls [(exRes, 1000), (exRes2, 2000)]) exClient = .ok exTwoOpened ∧
    (∀ o ∈ [(exRes, (1000 : Time)), (exRes2, 2000)], ∃ req key, o.1.Request = some req ∧
      (Context.Value req.ctx httpStatsKey = Any.string key ∨
        (Context.Value req.ctx httpStatsKey = Any.nil ∧ key = "none")) ∧
      exTwoOpened.entries o.1.ptr =
        [{ Key := key
           requestStats := { HeaderSize := dumpSize (exUtil.DumpRequest req)
                             BodySize := req.ContentLength, Start := 0, Stop := 0 }
           responseStats := { HeaderSize := dumpSize (exUtil.DumpResponse o.1)
                              BodySize := 0, Start := o.2, Stop := 0 } }] ∧
      exTwoOpened.entry o.1.ptr = some
        { Key := key
          requestStats := { HeaderSize := dumpSize (exUtil.DumpRequest req)
                            BodySize := req.ContentLength, Start := 0, Stop := 0 }
          responseStats := { HeaderSize := dumpSize (exUtil.DumpResponse o.1)
                             BodySize := 0, Start := o.2, Stop := 0 } }) :=
  ⟨rfl, by decide, by decide,
    (no_cross_talk exUtil [(exRes, 1000), (exRes2, 2000)] exClient exTwoOpened { written := [] }
      rfl (by decide) (by decide)).1⟩

end lfsapi

namespace lfsapi

/-! ## The mutex and the sink -/

/-- C9, as stated, fails: closing the live transfer of `exRes` records the
write to the sink between `Lock` and the deferred `Unlock`. -/
theorem finish_writes_under_lock :
    (finishResponseStats exOpened (some exRes) 4096 50001000).map Client.trace =
      .ok [Event.lock, Event.unlock, Event.lock, Event.write 1, Event.unlock] ∧
    noWriteWhileLocked false
      [Event.lock, Event.unlock, Event.lock, Event.write 1, Event.unlock] = false := by
  decide

/-- C9, amended: every returning call extends the trace by nothing, by
`lock, unlock`, or (a `finishResponseStats` call that finds a live entry, and
only such a call) by `lock, write, unlock`.  Each `Lock` is followed by its
`Unlock` within the call; `startResponseStats`, and `finishResponseStats` when
it finds no live entry, make no write while the mutex is held; every write to
the sink is made while the mutex is held. -/
theorem lock_discipline (u : Httputil) (c c' : Client) (call : Call)
    (h : call.apply u c = .ok c') :
    ∃ added, c'.trace = c.trace ++ added ∧
      (added = [] ∨ added = [Event.lock, Event.unlock] ∨
        ∃ r n now t, call = Call.finish (some r) n now ∧ c.entry r.ptr = some t ∧
          added = [Event.lock, Event.write r.ptr, Event.unlock]) ∧
      writesOnlyWhileLocked false added = true ∧
      ((∀ r n now, call = Call.finish (some r) n now → c.entry r.ptr = none) →
        noWriteWhileLocked false added = true) := by
  rcases step_spec u c c' call h with ⟨-, -, ht, -⟩ |
      ⟨r, t, w, req, key, -, -, -, -, -, -, -, ht⟩ |
      ⟨r, n, now, w, t, req, hc, -, he, -, -, -, -, ht⟩
  · rcases ht with ht | ht
    · exact ⟨[], by simp [ht], Or.inl rfl, rfl, fun _ => rfl⟩
    · exact ⟨_, ht, Or.inr (Or.inl rfl), rfl, fun _ => rfl⟩
  · exact ⟨_, ht, Or.inr (Or.inl rfl), rfl, fun _ => rfl⟩
  · refine ⟨_, ht, Or.inr (Or.inr ⟨r, n, now, t, hc, he, rfl⟩), rfl, fun hmiss => ?_⟩
    rw [hmiss r n now hc] at he
    cases he

theorem lock_discipline_witness :
    Call.apply exUtil exOpened (Call.finish (some exRes) 4096 50001000) =
      .ok { httpLogger := some { written := ["key=upload-1 reqheader=96 reqbody=-1 " ++
              "resheader=120 resbody=4096 restime=50000000 status=200 " ++
              "url=https://example.com/obj\n"] }
            transfers := some []
            trace := [Event.lock, Event.unlock, Event.lock, Event.write 1, Event.unlock] } ∧
    ∃ added, [Event.lock, Event.unlock, Event.lock, Event.write 1, Event.unlock] =
        exOpened.trace ++ added ∧
      (added = [] ∨ added = [Event.lock, Event.unlock] ∨
        ∃ r n now t, Call.finish (some exRes) 4096 50001000 = Call.finish (some r) n now ∧
          exOpened.entry r.ptr = some t ∧
          added = [Event.lock, Event.write r.ptr, Event.unlock]) ∧
      writesOnlyWhileLocked false added = true ∧
      ((∀ r n now, Call.finish (some exRes) 4096 50001000 = Call.finish (some r) n now →
          exOpened.entry r.ptr = none) →
        noWriteWhileLocked false added = true) :=
  have h : Call.apply exUtil exOpened (Call.finish (some exRes) 4096 50001000) =
      .ok { httpLogger := some { written := ["key=upload-1 reqheader=96 reqbody=-1 " ++
              "resheader=120 resbody=4096 restime=50000000 status=200 " ++
              "url=https://example.com/obj\n"] }
            transfers := some []
            trace := [Event.lock, Event.unlock, Event.lock, Event.write 1, Event.unlock] } := by
    decide
  ⟨h, lock_discipline exUtil exOpened _ (Call.finish (some exRes) 4096 50001000) h⟩

/-! ## Panics -/

/-- C10, as stated, fails: with the logger enabled, `startResponseStats` on a
response whose originating request is absent panics on the nil dereference, and
so does `writeHTTPStats`, also when reached from `finishResponseStats`; and
`startResponseStats` on a response to a request without URL (and without
`RequestURI`) panics inside `httputil.DumpRequest`. -/
theorem absent_request_panics :
    startResponseStats exUtil exClient (some exOrphan) 1000 = .error Fault.nilDeref ∧
    writeHTTPStats { written := [] } (some exOrphan) exDone = .error Fault.nilDeref ∧
    finishResponseStats exOpened (some { exOrphan with ptr := 1 }) 4096 50001000 =
      .error Fault.nilDeref ∧
    startResponseStats exUtil exClient (some exNoURL) 1000 = .error Fault.nilDeref := by
  decide

/-- C10, amended: for a present response with a present originating request
whose context holds nothing but a string (or nothing) under `httpStatsKey`:
`startResponseStats` returns in every client state when the header dump of the
request does not panic, that is when the request has a `RequestURI` or a URL;
`finishResponseStats` and `writeHTTPStats` return in every client state, also
when the request's URL is absent, which is written as `<nil>`.
`finishResponseStats` returns as well for a nil response and for any response
without a live entry, and `startResponseStats` for any argument when the logger
is disabled.  A header dump that fails gives header size `0` in the recorded
transfer. -/
theorem returns_when_request_present (u : Httputil) (c : Client) (start : Time) (n : Int)
    (now : Time) (w : Writer) (r : Response) (req : Request) (t : httpTransfer)
    (hreq : r.Request = some req)
    (hkey : ∀ k, Context.Value req.ctx httpStatsKey ≠ Any.other k) :
    ((req.RequestURI = "" → req.URL ≠ none) →
      ∃ c', startResponseStats u c (some r) start = .ok c') ∧
    (c.httpLogger = none → ∀ res, startResponseStats u c res start = .ok c) ∧
    (∃ c', finishResponseStats c (some r) n now = .ok c') ∧
    (∃ c', finishResponseStats c none n now = .ok c') ∧
    (∀ r', c.entry r'.ptr = none → ∃ c', finishResponseStats c (some r') n now = .ok c') ∧
    (∃ w', writeHTTPStats w (some r) t = .ok w') ∧
    (req.URL = none → writeHTTPStats w (some r) t = .ok
      { written := w.written ++
          ["key=" ++ t.Key ++
           " reqheader=" ++ toString t.requestStats.HeaderSize ++
           " reqbody=" ++ toString t.requestStats.BodySize ++
           " resheader=" ++ toString t.responseStats.HeaderSize ++
           " resbody=" ++ toString t.responseStats.BodySize ++
           " restime=" ++ toString (Time.Sub t.responseStats.Stop t.responseStats.Start) ++
           " status=" ++ toString r.StatusCode ++
           " url=" ++ "<nil>" ++ "\n"] }) ∧
    (c.httpLogger ≠ none → (req.RequestURI = "" → req.URL ≠ none) →
      ∀ e, u.DumpRequest req = .error e →
      ∃ c' t', startResponseStats u c (some r) start = .ok c' ∧ c'.entry r.ptr = some t' ∧
        t'.requestStats.HeaderSize = 0) ∧
    (c.httpLogger ≠ none → (req.RequestURI = "" → req.URL ≠ none) →
      ∀ e, u.DumpResponse r = .error e →
      ∃ c' t', startResponseStats u c (some r) start = .ok c' ∧ c'.entry r.ptr = some t' ∧
        t'.responseStats.HeaderSize = 0) := by
  have hkey2 : ∃ key, Context.Value req.ctx httpStatsKey = Any.string key ∨
      (Context.Value req.ctx httpStatsKey = Any.nil ∧ key = "none") := by
    cases hv : Context.Value req.ctx httpStatsKey with
    | nil => exact ⟨"none", Or.inr ⟨rfl, rfl⟩⟩
    | string s => exact ⟨s, Or.inl rfl⟩
    | other k => exact absurd hv (hkey k)
  obtain ⟨key, hk⟩ := hkey2
  have hmiss : ∀ res, (∀ r', res = some r' → c.entry r'.ptr = none) →
      ∃ c', finishResponseStats c res n now = .ok c' := by
    intro res hm
    rcases finish_miss c res n now hm with h | h
    · exact ⟨_, h⟩
    · exact ⟨_, h⟩
  refine ⟨?_, fun hd res => start_disabled u c res start hd, ?_,
    hmiss none (fun _ h => by cases h), fun r' he => hmiss (some r') (fun _ h => by cases h; exact he),
    ?_, ?_, ?_, ?_⟩
  · intro hd
    cases hw : c.httpLogger with
    | none => exact ⟨c, start_disabled u c _ start hw⟩
    | some w0 =>
      obtain ⟨c', hs, -⟩ := start_live u c r start w0 req key hw hreq hd hk
      exact ⟨c', hs⟩
  · cases he : c.entry r.ptr with
    | none => exact hmiss (some r) (fun _ h => by cases h; exact he)
    | some t0 =>
      cases hw : c.httpLogger with
      | none => exact ⟨c, finish_disabled c _ n now hw⟩
      | some w0 =>
        obtain ⟨c', hf, -⟩ := finish_live c r n now w0 t0 req hw he hreq
        exact ⟨c', hf⟩
  · exact ⟨w.Write (statsLine t r.StatusCode req.URL),
      by simp [writeHTTPStats, deref, hreq, bind, Except.bind, pure, Except.pure]⟩
  · intro hu
    simp [writeHTTPStats, deref, hreq, hu, bind, Except.bind, pure, Except.pure, Writer.Write,
      statsLine, fmtD, fmtURL]
  · intro hen hd e he
    cases hw : c.httpLogger with
    | none => exact absurd hw hen
    | some w0 =>
      obtain ⟨c', hs, -, hent, -, -⟩ := start_live u c r start w0 req key hw hreq hd hk
      exact ⟨c', _, hs, hent, by simp [he, dumpSize]⟩
  · intro hen hd e he
    cases hw : c.httpLogger with
    | none => exact absurd hw hen
    | some w0 =>
      obtain ⟨c', hs, -, hent, -, -⟩ := start_live u c r start w0 req key hw hreq hd hk
      exact ⟨c', _, hs, hent, by simp [he, dumpSize]⟩

theorem returns_when_request_present_witness :
    exURI.Request = some { exReq with URL := none, RequestURI := "/obj" } ∧
    (∀ k, Context.Value exReq.ctx httpStatsKey ≠ Any.other k) ∧
    (∃ c', startResponseStats exBadUtil exClient (some exURI) 1000 = .ok c') ∧
    (∃ c', finishResponseStats exClient (some exURI) 4096 2000 = .ok c') ∧
    (∃ w', writeHTTPStats { written := [] } (some exURI) exDone = .ok w') ∧
    writeHTTPStats { written := [] } (some exURI) exDone = .ok
      { written := ["key=upload-1 reqheader=96 reqbody=-1 resheader=120 resbody=4096 " ++
          "restime=50000000 status=200 url=<nil>\n"] } ∧
    (∃ c' t', startResponseStats exBadUtil exClient (some exURI) 1000 = .ok c' ∧
      c'.entry exURI.ptr = some t' ∧ t'.requestStats.HeaderSize = 0) ∧
    (∃ c' t', startResponseStats exBadUtil exClient (some exURI) 1000 = .ok c' ∧
      c'.entry exURI.ptr = some t' ∧ t'.responseStats.HeaderSize = 0) :=
  have hk : ∀ k, Context.Value exReq.ctx httpStatsKey ≠ Any.other k := fun k h => by cases h
  have hd : ("/obj" : String) = "" → (none : Option String) ≠ none := by decide
  have h := returns_when_request_present exBadUtil exClient 1000 4096 2000 { written := [] }
    exURI { exReq with URL := none, RequestURI := "/obj" } exDone rfl hk
  ⟨rfl, hk, h.1 hd, h.2.2.1, h.2.2.2.2.2.1, (h.2.2.2.2.2.2.1 rfl).trans (by decide),
    h.2.2.2.2.2.2.2.1 (by decide) hd "malformed" rfl,
    h.2.2.2.2.2.2.2.2 (by decide) hd "malformed" rfl⟩

end lfsapi
